import Mathlib

/-!
Verification of the Boomi process log space analyzer
(`boomi_log_analyzer.py`).

The Python module is shallowly embedded below.  Python `dict`s are
modelled as insertion-ordered association lists (`Dict α`), with
`dlookup` for `d[k]` / `d.get(k)` / `k in d`, and `dinsert` for
`d[k] = v` (updating an existing key in place keeps its position,
a fresh key is appended at the end — CPython's insertion-order
semantics).  `hash` on strings is randomized per interpreter run but
fixed within one run, so the engine is parametrized by an arbitrary
hash function `ph : String → Int`; Python's `%` on integers with a
positive modulus agrees with `Int.emod`.  Byte sizes are `Nat`
(the tool only ever sums nonnegative `st_size` values), megabyte
values are exact rationals `bytes / (1024*1024)`.
-/

/-- Mirrors the Python dataclass `ProcessInfo`. -/
structure ProcessInfo where
  process_id : String
  process_name : String
  process_type : String
  folder_name : String := ""
  deriving DecidableEq, Repr

/-- Mirrors the Python dataclass `ExecutionInfo`.  The engine never reads
`timestamp`, so the `datetime` payload is modelled opaquely as a `Nat`. -/
structure ExecutionInfo where
  execution_id : String
  process_name : String
  process_id : String
  size_bytes : Nat
  timestamp : Option Nat := none
  deriving DecidableEq, Repr

/-- Mirrors the Python dataclass `ExecutionStats`.  In Python the
`process_info` slot can in principle hold `None` (the accumulator starts
with `None`), so it is modelled as an `Option`. -/
structure ExecutionStats where
  process_info : Option ProcessInfo
  execution_count : Nat
  total_size_bytes : Nat
  max_size_bytes : Nat
  deriving DecidableEq, Repr

/-- `ExecutionStats.total_size_mb`: `total_size_bytes / (1024 * 1024)`. -/
def ExecutionStats.total_size_mb (s : ExecutionStats) : ℚ :=
  (s.total_size_bytes : ℚ) / (1024 * 1024)

/-- `ExecutionStats.avg_size_mb`: guarded division by the execution count. -/
def ExecutionStats.avg_size_mb (s : ExecutionStats) : ℚ :=
  if s.execution_count = 0 then 0
  else s.total_size_mb / (s.execution_count : ℚ)

/-- `ExecutionStats.max_size_mb`: `max_size_bytes / (1024 * 1024)`. -/
def ExecutionStats.max_size_mb (s : ExecutionStats) : ℚ :=
  (s.max_size_bytes : ℚ) / (1024 * 1024)

/-- A Python `dict` with `String` keys, as its insertion-ordered item list. -/
abbrev Dict (α : Type) : Type := List (String × α)

/-- `d.get(k)` / `d[k]` / `k in d`: first (only, for genuine dicts) match. -/
def dlookup {α : Type} (k : String) : Dict α → Option α
  | [] => none
  | (k', v) :: d => if k' = k then some v else dlookup k d

/-- `d[k] = v`: update in place if the key exists, else append at the end. -/
def dinsert {α : Type} (k : String) (v : α) : Dict α → Dict α
  | [] => [(k, v)]
  | (k', v') :: d => if k' = k then (k, v) :: d else (k', v') :: dinsert k v d

/-! ## Size scanner (`get_file_size_recursive`)

The filesystem state the function can observe is modelled explicitly.
A directory walk (`path.rglob('*')`) is a list of entries; `bad` stands
for an entry whose `stat()` raises `OSError`/`PermissionError` (e.g. a
file rotated away between listing and stat). -/

/-- One entry yielded by `path.rglob('*')`. -/
inductive FsEntry where
  /-- A regular file whose `stat()` succeeds, with its size. -/
  | file (size : Nat)
  /-- An entry that is not a regular file (`is_file()` is false). -/
  | dirEntry
  /-- An entry whose `stat()` raises `OSError` / `PermissionError`. -/
  | bad
  deriving DecidableEq, Repr

/-- What a path passed to `get_file_size_recursive` can look like. -/
inductive PathModel where
  /-- `path.exists()` is false. -/
  | missing
  /-- `path.is_file()` is true; `stat().st_size` is `size`. -/
  | regularFile (size : Nat)
  /-- A directory whose recursive walk yields `walk`. -/
  | directory (walk : List FsEntry)
  deriving DecidableEq, Repr

/-- The `for item in path.rglob('*')` loop body inside the `try` block:
accumulates file sizes; a raising entry aborts the loop with the
partial sum accumulated so far (`Except.error`). -/
def walkSum (acc : Nat) : List FsEntry → Except Nat Nat
  | [] => .ok acc
  | .file sz :: rest => walkSum (acc + sz) rest
  | .dirEntry :: rest => walkSum acc rest
  | .bad :: _ => .error acc

/-- `get_file_size_recursive`: 0 for a missing path, `st_size` for a
single file, otherwise the walk total.  The `except (OSError,
PermissionError)` handler around the whole loop prints a warning and
falls through to `return total_size`, so an error yields the partial
sum instead of propagating. -/
def get_file_size_recursive : PathModel → Nat
  | .missing => 0
  | .regularFile sz => sz
  | .directory walk =>
    match walkSum 0 walk with
    | .ok total => total
    | .error truncated => truncated

/-- Modelled from the spec: the per-entry-skip semantics the spec ascribes
to the size scanner — "it skips the inaccessible entry, emits a warning,
and continues the walk", every accessible file of the walk still counted. -/
def specSkipEntrySum : List FsEntry → Nat
  | [] => 0
  | .file sz :: rest => sz + specSkipEntrySum rest
  | .dirEntry :: rest => specSkipEntrySum rest
  | .bad :: rest => specSkipEntrySum rest

/-! ## Reconciliation engine -/

/-- `create_process_name_to_id_mapping`: inverse index name → id,
built by iterating the dict items in order (later names overwrite). -/
def create_process_name_to_id_mapping (processes : Dict ProcessInfo) : Dict String :=
  processes.foldl (fun acc p => dinsert p.2.process_name p.1 acc) []

/-- The fallback identifier `f"unknown_process_{hash(name) % 10000}"`
synthesized for an unresolvable process name. -/
def fallbackId (ph : String → Int) (name : String) : String :=
  "unknown_process_" ++ toString ((ph name) % 10000)

/-- Resolution of an execution's process name to a bucket key:
`name_to_id.get(name, "")`, falling back to `fallbackId` when the
result is the empty string. -/
def resolveId (ph : String → Int) (name_to_id : Dict String) (name : String) : String :=
  let pid0 := (dlookup name name_to_id).getD ""
  if pid0 = "" then fallbackId ph name else pid0

/-- The per-bucket accumulator record held in `stats_dict`. -/
structure StatsAcc where
  process_info : Option ProcessInfo
  execution_count : Nat
  total_execution_size : Nat
  max_execution_size : Nat
  process_definition_size : Nat
  deriving DecidableEq, Repr

/-- The `defaultdict` default accumulator. -/
def defaultAcc : StatsAcc :=
  { process_info := none, execution_count := 0, total_execution_size := 0,
    max_execution_size := 0, process_definition_size := 0 }

/-- The three counter updates of the execution loop body:
`execution_count += 1`, `total_execution_size += size`,
`max_execution_size = max(max_execution_size, size)`. -/
def stepNums (s : StatsAcc) (e : ExecutionInfo) : StatsAcc :=
  { s with execution_count := s.execution_count + 1,
           total_execution_size := s.total_execution_size + e.size_bytes,
           max_execution_size := max s.max_execution_size e.size_bytes }

/-- The `process_info` update of the execution loop body:
`if process_id in processes: … elif not stats['process_info']: …`. -/
def stepInfo (processes : Dict ProcessInfo) (pid name : String)
    (s : StatsAcc) : StatsAcc :=
  match dlookup pid processes with
  | some pi => { s with process_info := some pi }
  | none =>
    if s.process_info = none then
      { s with process_info := some { process_id := pid,
                                      process_name := name,
                                      process_type := "unknown" } }
    else s

/-- One iteration of the `for execution in executions` loop of
`generate_execution_stats`. -/
def execStep (ph : String → Int) (processes : Dict ProcessInfo)
    (name_to_id : Dict String) (sd : Dict StatsAcc) (e : ExecutionInfo) :
    Dict StatsAcc :=
  let pid := resolveId ph name_to_id e.process_name
  dinsert pid
    (stepInfo processes pid e.process_name
      (stepNums ((dlookup pid sd).getD defaultAcc) e)) sd

/-- The whole execution-history pass of `generate_execution_stats`. -/
def execFold (ph : String → Int) (processes : Dict ProcessInfo)
    (name_to_id : Dict String) (sd : Dict StatsAcc)
    (executions : List ExecutionInfo) : Dict StatsAcc :=
  executions.foldl (execStep ph processes name_to_id) sd

/-- One iteration of the `for process_id, definition_size in
process_sizes.items()` loop. -/
def mergeStep (processes : Dict ProcessInfo) (sd : Dict StatsAcc)
    (pz : String × Nat) : Dict StatsAcc :=
  match dlookup pz.1 sd with
  | some s => dinsert pz.1 { s with process_definition_size := pz.2 } sd
  | none =>
    let pi : ProcessInfo :=
      match dlookup pz.1 processes with
      | some pi => pi
      | none => { process_id := pz.1, process_name := "NO_EXECUTIONS_FOUND",
                  process_type := "unknown" }
    dinsert pz.1 { process_info := some pi, execution_count := 0,
                   total_execution_size := 0, max_execution_size := 0,
                   process_definition_size := pz.2 } sd

/-- The definition-size merge pass of `generate_execution_stats`. -/
def mergeSizes (processes : Dict ProcessInfo) (sd : Dict StatsAcc)
    (process_sizes : Dict Nat) : Dict StatsAcc :=
  process_sizes.foldl (mergeStep processes) sd

/-- Finalization of one `stats_dict` item: buckets with zero executions
are skipped, the rest become `ExecutionStats` with the definition size
folded into the total and the max. -/
def emitStats (p : String × StatsAcc) : Option ExecutionStats :=
  if p.2.execution_count = 0 then none
  else some { process_info := p.2.process_info,
              execution_count := p.2.execution_count,
              total_size_bytes := p.2.total_execution_size + p.2.process_definition_size,
              max_size_bytes := max p.2.max_execution_size p.2.process_definition_size }

/-- The fully populated `stats_dict` of `generate_execution_stats`,
just before conversion to `ExecutionStats` objects. -/
def statsDict (ph : String → Int) (processes : Dict ProcessInfo)
    (process_sizes : Dict Nat) (executions : List ExecutionInfo) :
    Dict StatsAcc :=
  mergeSizes processes
    (execFold ph processes (create_process_name_to_id_mapping processes) [] executions)
    process_sizes

/-- `generate_execution_stats`: resolve and accumulate every execution,
merge in definition sizes, emit the non-empty buckets in dict order. -/
def generate_execution_stats (ph : String → Int) (processes : Dict ProcessInfo)
    (process_sizes : Dict Nat) (executions : List ExecutionInfo) :
    List ExecutionStats :=
  (statsDict ph processes process_sizes executions).filterMap emitStats

/-! ## CSV report (`write_csv_report`) -/

/-- One CSV cell, before `csv.writer` stringification: the Python code
writes strings, ints and floats. -/
inductive CsvCell where
  | str (s : String)
  | nat (n : Nat)
  | rat (q : ℚ)
  deriving DecidableEq, Repr

/-- The fixed CSV header row. -/
def csvHeader : List CsvCell :=
  [.str "Process Name", .str "Process ID", .str "Process Type", .str "Folder Path",
   .str "Execution Count", .str "Total Size (Bytes)", .str "Total Size (MB)",
   .str "Average Size (MB)", .str "Max Size (MB)", .str "Process Definition Size (MB)",
   .str "Execution Logs Size (MB)"]

/-- The attribute lookups on a `process_info` that may be `None`: Python
would raise `AttributeError` on `None`; the loaded rows always carry a
`ProcessInfo`, and a `None` is rendered as empty strings here. -/
def infoName : Option ProcessInfo → String
  | some pi => pi.process_name
  | none => ""

/-- `process_id` of an optional `ProcessInfo` (empty for `None`). -/
def infoId : Option ProcessInfo → String
  | some pi => pi.process_id
  | none => ""

/-- `process_type` of an optional `ProcessInfo` (empty for `None`). -/
def infoType : Option ProcessInfo → String
  | some pi => pi.process_type
  | none => ""

/-- `folder_name` of an optional `ProcessInfo` (empty for `None`). -/
def infoFolder : Option ProcessInfo → String
  | some pi => pi.folder_name
  | none => ""

/-- One data row of `write_csv_report`.  The Python guard
`hasattr(stats, 'process_definition_size_mb')` is always false —
`ExecutionStats` declares no such field and none is ever assigned — so
the row always keeps `definition_size_mb = 0` and
`execution_size_mb = stats.total_size_mb`. -/
def csvRow (stats : ExecutionStats) : List CsvCell :=
  let definition_size_mb : ℚ := 0
  let execution_size_mb : ℚ := stats.total_size_mb
  [.str (infoName stats.process_info), .str (infoId stats.process_info),
   .str (infoType stats.process_info), .str (infoFolder stats.process_info),
   .nat stats.execution_count, .nat stats.total_size_bytes,
   .rat stats.total_size_mb, .rat stats.avg_size_mb, .rat stats.max_size_mb,
   .rat definition_size_mb, .rat execution_size_mb]

/-- `write_csv_report`, modelled as the list of rows written to the file:
the header followed by one row per `ExecutionStats`, in list order. -/
def write_csv_report (stats_list : List ExecutionStats) : List (List CsvCell) :=
  csvHeader :: stats_list.map csvRow

/-! ## Dictionary lemmas -/

theorem dlookup_dinsert {α : Type} (k k' : String) (v : α) (d : Dict α) :
    dlookup k (dinsert k' v d) = if k' = k then some v else dlookup k d := by
  induction d with
  | nil => simp [dinsert, dlookup]
  | cons p d ih =>
    obtain ⟨a, b⟩ := p
    by_cases h1 : a = k'
    · subst h1
      by_cases h2 : a = k
      · subst h2
        simp [dinsert, dlookup]
      · simp [dinsert, dlookup, h2]
    · by_cases h2 : a = k
      · subst h2
        have h3 : ¬ (k' = a) := fun h => h1 h.symm
        simp [dinsert, dlookup, h1, h3]
      · simp [dinsert, dlookup, h1, h2, ih]

theorem mem_of_dlookup {α : Type} {k : String} {v : α} {d : Dict α}
    (h : dlookup k d = some v) : (k, v) ∈ d := by
  induction d with
  | nil => simp [dlookup] at h
  | cons p d ih =>
    obtain ⟨a, b⟩ := p
    by_cases h1 : a = k
    · subst h1
      simp [dlookup] at h
      simp [h]
    · simp [dlookup, h1] at h
      exact List.mem_cons_of_mem _ (ih h)

theorem dlookup_eq_of_mem {α : Type} {k : String} {v : α} {d : Dict α}
    (hnd : (d.map Prod.fst).Nodup) (hm : (k, v) ∈ d) : dlookup k d = some v := by
  induction d with
  | nil => simp at hm
  | cons p d ih =>
    obtain ⟨a, b⟩ := p
    simp only [List.map_cons, List.nodup_cons] at hnd
    rcases List.mem_cons.mp hm with h | h
    · have h1 : k = a := congrArg Prod.fst h
      have h2 : v = b := congrArg Prod.snd h
      subst h1
      subst h2
      simp [dlookup]
    · have hak : a ≠ k := fun heq => hnd.1 (List.mem_map.mpr ⟨(k, v), h, heq.symm⟩)
      simp [dlookup, hak]
      exact ih hnd.2 h

theorem dlookup_isSome_iff_mem {α : Type} (k : String) (d : Dict α) :
    (dlookup k d).isSome ↔ k ∈ d.map Prod.fst := by
  induction d with
  | nil => simp [dlookup]
  | cons p d ih =>
    obtain ⟨a, b⟩ := p
    by_cases h : a = k
    · subst h
      simp [dlookup]
    · rw [show dlookup k ((a, b) :: d) = dlookup k d from by simp [dlookup, h], ih]
      simp only [List.map_cons, List.mem_cons]
      exact (or_iff_right (fun h' : k = a => h h'.symm)).symm

/-! ## Execution-pass lemmas -/

/-- The accumulator currently associated with a bucket key (the
`defaultdict` default when the key is absent). -/
def accOf (pid : String) (sd : Dict StatsAcc) : StatsAcc :=
  (dlookup pid sd).getD defaultAcc

/-- The executions of a list that resolve to a given bucket key. -/
def matching (ph : String → Int) (n2i : Dict String)
    (executions : List ExecutionInfo) (pid : String) : List ExecutionInfo :=
  executions.filter (fun e => resolveId ph n2i e.process_name == pid)

@[simp] theorem stepNums_count (s : StatsAcc) (e : ExecutionInfo) :
    (stepNums s e).execution_count = s.execution_count + 1 := rfl

@[simp] theorem stepNums_total (s : StatsAcc) (e : ExecutionInfo) :
    (stepNums s e).total_execution_size = s.total_execution_size + e.size_bytes := rfl

@[simp] theorem stepNums_max (s : StatsAcc) (e : ExecutionInfo) :
    (stepNums s e).max_execution_size = max s.max_execution_size e.size_bytes := rfl

@[simp] theorem stepNums_def (s : StatsAcc) (e : ExecutionInfo) :
    (stepNums s e).process_definition_size = s.process_definition_size := rfl

@[simp] theorem stepNums_info (s : StatsAcc) (e : ExecutionInfo) :
    (stepNums s e).process_info = s.process_info := rfl

@[simp] theorem stepInfo_count (processes : Dict ProcessInfo) (pid name : String)
    (s : StatsAcc) : (stepInfo processes pid name s).execution_count = s.execution_count := by
  unfold stepInfo
  cases dlookup pid processes with
  | some pi => rfl
  | none =>
    by_cases h : s.process_info = none <;> simp [h]

@[simp] theorem stepInfo_total (processes : Dict ProcessInfo) (pid name : String)
    (s : StatsAcc) : (stepInfo processes pid name s).total_execution_size = s.total_execution_size := by
  unfold stepInfo
  cases dlookup pid processes with
  | some pi => rfl
  | none =>
    by_cases h : s.process_info = none <;> simp [h]

@[simp] theorem stepInfo_max (processes : Dict ProcessInfo) (pid name : String)
    (s : StatsAcc) : (stepInfo processes pid name s).max_execution_size = s.max_execution_size := by
  unfold stepInfo
  cases dlookup pid processes with
  | some pi => rfl
  | none =>
    by_cases h : s.process_info = none <;> simp [h]

@[simp] theorem stepInfo_def (processes : Dict ProcessInfo) (pid name : String)
    (s : StatsAcc) : (stepInfo processes pid name s).process_definition_size = s.process_definition_size := by
  unfold stepInfo
  cases dlookup pid processes with
  | some pi => rfl
  | none =>
    by_cases h : s.process_info = none <;> simp [h]

theorem dlookup_execStep (ph : String → Int) (processes : Dict ProcessInfo)
    (n2i : Dict String) (sd : Dict StatsAcc) (e : ExecutionInfo) (pid : String) :
    dlookup pid (execStep ph processes n2i sd e) =
      if resolveId ph n2i e.process_name = pid
      then some (stepInfo processes pid e.process_name (stepNums (accOf pid sd) e))
      else dlookup pid sd := by
  by_cases h : resolveId ph n2i e.process_name = pid
  · subst h
    simp [execStep, dlookup_dinsert, accOf]
  · simp [execStep, dlookup_dinsert, h]

theorem accOf_execStep_eq {ph : String → Int} {processes : Dict ProcessInfo}
    {n2i : Dict String} {sd : Dict StatsAcc} {e : ExecutionInfo} {pid : String}
    (h : resolveId ph n2i e.process_name = pid) :
    accOf pid (execStep ph processes n2i sd e) =
      stepInfo processes pid e.process_name (stepNums (accOf pid sd) e) := by
  simp [accOf, dlookup_execStep, h]

theorem accOf_execStep_ne {ph : String → Int} {processes : Dict ProcessInfo}
    {n2i : Dict String} {sd : Dict StatsAcc} {e : ExecutionInfo} {pid : String}
    (h : ¬ resolveId ph n2i e.process_name = pid) :
    accOf pid (execStep ph processes n2i sd e) = accOf pid sd := by
  simp [accOf, dlookup_execStep, h]

theorem execFold_cons (ph : String → Int) (processes : Dict ProcessInfo)
    (n2i : Dict String) (sd : Dict StatsAcc) (e : ExecutionInfo)
    (es : List ExecutionInfo) :
    execFold ph processes n2i sd (e :: es) =
      execFold ph processes n2i (execStep ph processes n2i sd e) es := rfl

theorem matching_cons (ph : String → Int) (n2i : Dict String)
    (e : ExecutionInfo) (es : List ExecutionInfo) (pid : String) :
    matching ph n2i (e :: es) pid =
      if resolveId ph n2i e.process_name = pid
      then e :: matching ph n2i es pid
      else matching ph n2i es pid := by
  by_cases h : resolveId ph n2i e.process_name = pid <;>
    simp [matching, List.filter_cons, h]

theorem accOf_execFold_count (ph : String → Int) (processes : Dict ProcessInfo)
    (n2i : Dict String) (es : List ExecutionInfo) :
    ∀ (sd : Dict StatsAcc) (pid : String),
    (accOf pid (execFold ph processes n2i sd es)).execution_count =
      (accOf pid sd).execution_count + (matching ph n2i es pid).length := by
  induction es with
  | nil =>
    intro sd pid
    simp [execFold, matching]
  | cons e es ih =>
    intro sd pid
    rw [execFold_cons, ih, matching_cons]
    by_cases h : resolveId ph n2i e.process_name = pid
    · rw [accOf_execStep_eq h]
      simp [h]
      omega
    · rw [accOf_execStep_ne h, if_neg h]

theorem accOf_execFold_total (ph : String → Int) (processes : Dict ProcessInfo)
    (n2i : Dict String) (es : List ExecutionInfo) :
    ∀ (sd : Dict StatsAcc) (pid : String),
    (accOf pid (execFold ph processes n2i sd es)).total_execution_size =
      (accOf pid sd).total_execution_size +
        ((matching ph n2i es pid).map ExecutionInfo.size_bytes).sum := by
  induction es with
  | nil =>
    intro sd pid
    simp [execFold, matching]
  | cons e es ih =>
    intro sd pid
    rw [execFold_cons, ih, matching_cons]
    by_cases h : resolveId ph n2i e.process_name = pid
    · rw [accOf_execStep_eq h]
      simp [h]
      omega
    · rw [accOf_execStep_ne h, if_neg h]

theorem accOf_execFold_max (ph : String → Int) (processes : Dict ProcessInfo)
    (n2i : Dict String) (es : List ExecutionInfo) :
    ∀ (sd : Dict StatsAcc) (pid : String),
    (accOf pid (execFold ph processes n2i sd es)).max_execution_size =
      (matching ph n2i es pid).foldl (fun m e => max m e.size_bytes)
        (accOf pid sd).max_execution_size := by
  induction es with
  | nil =>
    intro sd pid
    simp [execFold, matching]
  | cons e es ih =>
    intro sd pid
    rw [execFold_cons, ih, matching_cons]
    by_cases h : resolveId ph n2i e.process_name = pid
    · rw [accOf_execStep_eq h]
      simp [h]
    · rw [accOf_execStep_ne h, if_neg h]

theorem accOf_execFold_def (ph : String → Int) (processes : Dict ProcessInfo)
    (n2i : Dict String) (es : List ExecutionInfo) :
    ∀ (sd : Dict StatsAcc) (pid : String),
    (accOf pid (execFold ph processes n2i sd es)).process_definition_size =
      (accOf pid sd).process_definition_size := by
  induction es with
  | nil =>
    intro sd pid
    simp [execFold]
  | cons e es ih =>
    intro sd pid
    rw [execFold_cons, ih]
    by_cases h : resolveId ph n2i e.process_name = pid
    · rw [accOf_execStep_eq h]
      simp
    · rw [accOf_execStep_ne h]

theorem dlookup_execFold_isSome (ph : String → Int) (processes : Dict ProcessInfo)
    (n2i : Dict String) (es : List ExecutionInfo) :
    ∀ (sd : Dict StatsAcc) (pid : String),
    (dlookup pid (execFold ph processes n2i sd es)).isSome ↔
      ((dlookup pid sd).isSome ∨ matching ph n2i es pid ≠ []) := by
  induction es with
  | nil =>
    intro sd pid
    simp [execFold, matching]
  | cons e es ih =>
    intro sd pid
    rw [execFold_cons, ih, matching_cons]
    by_cases h : resolveId ph n2i e.process_name = pid
    · simp [dlookup_execStep, h]
    · simp [dlookup_execStep, h]

theorem accOf_execFold_info_preserved (ph : String → Int)
    (processes : Dict ProcessInfo) (n2i : Dict String) (es : List ExecutionInfo) :
    ∀ (sd : Dict StatsAcc) (pid : String) (pi : ProcessInfo),
    dlookup pid processes = none →
    (accOf pid sd).process_info = some pi →
    (accOf pid (execFold ph processes n2i sd es)).process_info = some pi := by
  induction es with
  | nil =>
    intro sd pid pi _ hinfo
    simpa [execFold] using hinfo
  | cons e es ih =>
    intro sd pid pi hproc hinfo
    rw [execFold_cons]
    refine ih _ pid pi hproc ?_
    by_cases h : resolveId ph n2i e.process_name = pid
    · rw [accOf_execStep_eq h]
      simp only [stepInfo, hproc, stepNums_info, hinfo]
      simp only [reduceCtorEq, if_false]
      exact hinfo
    · rw [accOf_execStep_ne h]
      exact hinfo

theorem accOf_execFold_info_unknown (ph : String → Int)
    (processes : Dict ProcessInfo) (n2i : Dict String) (es : List ExecutionInfo) :
    ∀ (sd : Dict StatsAcc) (pid : String),
    dlookup pid processes = none →
    dlookup pid sd = none →
    matching ph n2i es pid ≠ [] →
    ∃ nm, (accOf pid (execFold ph processes n2i sd es)).process_info =
      some { process_id := pid, process_name := nm, process_type := "unknown",
             folder_name := "" } := by
  induction es with
  | nil =>
    intro sd pid _ _ hm
    simp [matching] at hm
  | cons e es ih =>
    intro sd pid hproc hsd hm
    rw [execFold_cons]
    by_cases h : resolveId ph n2i e.process_name = pid
    · refine ⟨e.process_name, ?_⟩
      refine accOf_execFold_info_preserved ph processes n2i es _ pid _ hproc ?_
      rw [accOf_execStep_eq h]
      have hacc : (accOf pid sd).process_info = none := by
        simp [accOf, hsd, defaultAcc]
      simp only [stepInfo, hproc, stepNums_info, hacc]
      simp
    · have hm' : matching ph n2i es pid ≠ [] := by
        rw [matching_cons, if_neg h] at hm
        exact hm
      have hsd' : dlookup pid (execStep ph processes n2i sd e) = none := by
        rw [dlookup_execStep, if_neg h]
        exact hsd
      exact ih _ pid hproc hsd' hm'

/-! ## Definition-size merge lemmas -/

theorem mergeSizes_cons (processes : Dict ProcessInfo) (sd : Dict StatsAcc)
    (pz : String × Nat) (rest : Dict Nat) :
    mergeSizes processes sd (pz :: rest) =
      mergeSizes processes (mergeStep processes sd pz) rest := rfl

theorem dlookup_mergeStep_ne (processes : Dict ProcessInfo) (sd : Dict StatsAcc)
    (pz : String × Nat) (pid : String) (h : pz.1 ≠ pid) :
    dlookup pid (mergeStep processes sd pz) = dlookup pid sd := by
  unfold mergeStep
  cases dlookup pz.1 sd with
  | some s => simp [dlookup_dinsert, h]
  | none => simp [dlookup_dinsert, h]

theorem dlookup_mergeSizes_notmem (processes : Dict ProcessInfo)
    (sizes : Dict Nat) :
    ∀ (sd : Dict StatsAcc) (pid : String), pid ∉ sizes.map Prod.fst →
    dlookup pid (mergeSizes processes sd sizes) = dlookup pid sd := by
  induction sizes with
  | nil =>
    intro sd pid _
    rfl
  | cons pz rest ih =>
    intro sd pid hmem
    simp only [List.map_cons, List.mem_cons] at hmem
    push_neg at hmem
    rw [mergeSizes_cons, ih _ pid hmem.2,
        dlookup_mergeStep_ne _ _ _ _ (fun h => hmem.1 h.symm)]

theorem accOf_mergeStep_count (processes : Dict ProcessInfo) (sd : Dict StatsAcc)
    (pz : String × Nat) (pid : String) :
    (accOf pid (mergeStep processes sd pz)).execution_count =
      (accOf pid sd).execution_count := by
  by_cases h : pz.1 = pid
  · subst h
    unfold mergeStep
    cases hl : dlookup pz.1 sd with
    | some s => simp [accOf, dlookup_dinsert, hl]
    | none => simp [accOf, dlookup_dinsert, hl, defaultAcc]
  · simp [accOf, dlookup_mergeStep_ne _ _ _ _ h]

theorem accOf_mergeStep_total (processes : Dict ProcessInfo) (sd : Dict StatsAcc)
    (pz : String × Nat) (pid : String) :
    (accOf pid (mergeStep processes sd pz)).total_execution_size =
      (accOf pid sd).total_execution_size := by
  by_cases h : pz.1 = pid
  · subst h
    unfold mergeStep
    cases hl : dlookup pz.1 sd with
    | some s => simp [accOf, dlookup_dinsert, hl]
    | none => simp [accOf, dlookup_dinsert, hl, defaultAcc]
  · simp [accOf, dlookup_mergeStep_ne _ _ _ _ h]

theorem accOf_mergeStep_max (processes : Dict ProcessInfo) (sd : Dict StatsAcc)
    (pz : String × Nat) (pid : String) :
    (accOf pid (mergeStep processes sd pz)).max_execution_size =
      (accOf pid sd).max_execution_size := by
  by_cases h : pz.1 = pid
  · subst h
    unfold mergeStep
    cases hl : dlookup pz.1 sd with
    | some s => simp [accOf, dlookup_dinsert, hl]
    | none => simp [accOf, dlookup_dinsert, hl, defaultAcc]
  · simp [accOf, dlookup_mergeStep_ne _ _ _ _ h]

theorem accOf_mergeSizes_count (processes : Dict ProcessInfo) (sizes : Dict Nat) :
    ∀ (sd : Dict StatsAcc) (pid : String),
    (accOf pid (mergeSizes processes sd sizes)).execution_count =
      (accOf pid sd).execution_count := by
  induction sizes with
  | nil => intro sd pid; rfl
  | cons pz rest ih =>
    intro sd pid
    rw [mergeSizes_cons, ih, accOf_mergeStep_count]

theorem accOf_mergeSizes_total (processes : Dict ProcessInfo) (sizes : Dict Nat) :
    ∀ (sd : Dict StatsAcc) (pid : String),
    (accOf pid (mergeSizes processes sd sizes)).total_execution_size =
      (accOf pid sd).total_execution_size := by
  induction sizes with
  | nil => intro sd pid; rfl
  | cons pz rest ih =>
    intro sd pid
    rw [mergeSizes_cons, ih, accOf_mergeStep_total]

theorem accOf_mergeSizes_max (processes : Dict ProcessInfo) (sizes : Dict Nat) :
    ∀ (sd : Dict StatsAcc) (pid : String),
    (accOf pid (mergeSizes processes sd sizes)).max_execution_size =
      (accOf pid sd).max_execution_size := by
  induction sizes with
  | nil => intro sd pid; rfl
  | cons pz rest ih =>
    intro sd pid
    rw [mergeSizes_cons, ih, accOf_mergeStep_max]

theorem accOf_mergeStep_def_self (processes : Dict ProcessInfo)
    (sd : Dict StatsAcc) (pz : String × Nat) :
    (accOf pz.1 (mergeStep processes sd pz)).process_definition_size = pz.2 := by
  unfold mergeStep
  cases hl : dlookup pz.1 sd with
  | some s => simp [accOf, dlookup_dinsert, hl]
  | none => simp [accOf, dlookup_dinsert, hl]

theorem accOf_mergeSizes_def (processes : Dict ProcessInfo) (sizes : Dict Nat) :
    ∀ (sd : Dict StatsAcc) (pid : String), (sizes.map Prod.fst).Nodup →
    (accOf pid (mergeSizes processes sd sizes)).process_definition_size =
      (dlookup pid sizes).getD (accOf pid sd).process_definition_size := by
  induction sizes with
  | nil =>
    intro sd pid _
    rfl
  | cons pz rest ih =>
    intro sd pid hnd
    obtain ⟨pk, pv⟩ := pz
    simp only [List.map_cons, List.nodup_cons] at hnd
    by_cases h : pk = pid
    · subst h
      rw [mergeSizes_cons]
      simp only [accOf]
      rw [dlookup_mergeSizes_notmem processes rest (mergeStep processes sd (pk, pv))
            pk hnd.1]
      have := accOf_mergeStep_def_self processes sd (pk, pv)
      simp only [accOf] at this
      rw [this]
      simp [dlookup]
    · rw [mergeSizes_cons, ih _ pid hnd.2,
          show dlookup pid ((pk, pv) :: rest) = dlookup pid rest from by
            simp [dlookup, h]]
      congr 1
      simp only [accOf]
      rw [dlookup_mergeStep_ne processes sd (pk, pv) pid h]

theorem dlookup_mergeStep_isSome (processes : Dict ProcessInfo)
    (sd : Dict StatsAcc) (pz : String × Nat) (pid : String) :
    (dlookup pid (mergeStep processes sd pz)).isSome ↔
      (pz.1 = pid ∨ (dlookup pid sd).isSome) := by
  by_cases h : pz.1 = pid
  · subst h
    unfold mergeStep
    cases hl : dlookup pz.1 sd with
    | some s => simp [dlookup_dinsert, hl]
    | none => simp [dlookup_dinsert, hl]
  · simp [dlookup_mergeStep_ne _ _ _ _ h, h]

theorem dlookup_mergeSizes_isSome (processes : Dict ProcessInfo)
    (sizes : Dict Nat) :
    ∀ (sd : Dict StatsAcc) (pid : String),
    (dlookup pid (mergeSizes processes sd sizes)).isSome ↔
      ((dlookup pid sd).isSome ∨ pid ∈ sizes.map Prod.fst) := by
  induction sizes with
  | nil =>
    intro sd pid
    simp [mergeSizes]
  | cons pz rest ih =>
    intro sd pid
    rw [mergeSizes_cons, ih, dlookup_mergeStep_isSome]
    simp only [List.map_cons, List.mem_cons]
    constructor
    · rintro ((h | h) | h)
      · exact Or.inr (Or.inl h.symm)
      · exact Or.inl h
      · exact Or.inr (Or.inr h)
    · rintro (h | h | h)
      · exact Or.inl (Or.inr h)
      · exact Or.inl (Or.inl h.symm)
      · exact Or.inr h

theorem accOf_mergeSizes_info (processes : Dict ProcessInfo) (sizes : Dict Nat) :
    ∀ (sd : Dict StatsAcc) (pid : String), (dlookup pid sd).isSome →
    (accOf pid (mergeSizes processes sd sizes)).process_info =
      (accOf pid sd).process_info := by
  induction sizes with
  | nil =>
    intro sd pid _
    rfl
  | cons pz rest ih =>
    intro sd pid hsome
    have hsome' : (dlookup pid (mergeStep processes sd pz)).isSome := by
      rw [dlookup_mergeStep_isSome]
      exact Or.inr hsome
    rw [mergeSizes_cons, ih _ pid hsome']
    by_cases h : pz.1 = pid
    · subst h
      unfold mergeStep
      cases hl : dlookup pz.1 sd with
      | some s => simp [accOf, dlookup_dinsert, hl]
      | none => rw [hl] at hsome; simp at hsome
    · simp [accOf, dlookup_mergeStep_ne _ _ _ _ h]

/-! ## Concrete example inputs (spec §8 scenario) -/

/-- One definition: identifier "A1", display name "Invoice Sync". -/
def exProcs : Dict ProcessInfo :=
  [("A1", { process_id := "A1", process_name := "Invoice Sync",
            process_type := "process" })]

/-- Definition sizes: "A1" owns 1000 bytes. -/
def exSizes : Dict Nat := [("A1", 1000)]

/-- Three executions: two of "Invoice Sync", one of unresolved "Unknown Flow". -/
def exExecs : List ExecutionInfo :=
  [{ execution_id := "e1", process_name := "Invoice Sync", process_id := "",
     size_bytes := 2000 },
   { execution_id := "e2", process_name := "Invoice Sync", process_id := "",
     size_bytes := 3000 },
   { execution_id := "e3", process_name := "Unknown Flow", process_id := "",
     size_bytes := 500 }]

/-! ## Claim theorems -/

/-- C6: on the concrete scenario (definition "A1"/"Invoice Sync" of 1000
bytes; executions Invoice Sync 2000, Invoice Sync 3000, Unknown Flow 500)
`generate_execution_stats` returns exactly two buckets: "Invoice Sync"
with count 2, total 6000, max 3000, and an "Unknown Flow" placeholder
with count 1, total 500, max 500. -/
theorem generate_stats_scenario :
    generate_execution_stats (fun _ => 0) exProcs exSizes exExecs =
      [{ process_info := some { process_id := "A1", process_name := "Invoice Sync",
                                process_type := "process", folder_name := "" },
         execution_count := 2, total_size_bytes := 6000, max_size_bytes := 3000 },
       { process_info := some { process_id := "unknown_process_0",
                                process_name := "Unknown Flow",
                                process_type := "unknown", folder_name := "" },
         execution_count := 1, total_size_bytes := 500, max_size_bytes := 500 }] := by
  decide

/-- C1: every element of the output of `generate_execution_stats` has
`execution_count ≥ 1`; an identifier that appears in the definition-size
mapping but is the resolved bucket of no execution keeps a zero-count
accumulator in `stats_dict`, which `emitStats` maps to `none`, so it
produces no output element. -/
theorem generate_stats_count_pos (ph : String → Int)
    (processes : Dict ProcessInfo) (process_sizes : Dict Nat)
    (executions : List ExecutionInfo) :
    (∀ st ∈ generate_execution_stats ph processes process_sizes executions,
       1 ≤ st.execution_count) ∧
    (∀ pid, pid ∈ process_sizes.map Prod.fst →
       pid ∉ executions.map
         (fun e => resolveId ph (create_process_name_to_id_mapping processes) e.process_name) →
       ∀ s, dlookup pid (statsDict ph processes process_sizes executions) = some s →
         s.execution_count = 0 ∧ emitStats (pid, s) = none) := by
  constructor
  · intro st hst
    rcases List.mem_filterMap.mp hst with ⟨p, _, hemit⟩
    by_cases h : p.2.execution_count = 0
    · simp [emitStats, h] at hemit
    · simp only [emitStats, h, if_false] at hemit
      have h2 := Option.some.inj hemit
      rw [← h2]
      show 1 ≤ p.2.execution_count
      omega
  · intro pid _ hnot s hs
    have hmatch : matching ph (create_process_name_to_id_mapping processes)
        executions pid = [] := by
      refine List.filter_eq_nil_iff.mpr ?_
      intro e he
      simp only [beq_iff_eq]
      intro hres
      exact hnot (List.mem_map.mpr ⟨e, he, hres⟩)
    have hcount : (accOf pid (statsDict ph processes process_sizes executions)).execution_count = 0 := by
      unfold statsDict
      rw [accOf_mergeSizes_count, accOf_execFold_count, hmatch]
      rfl
    have hsc : s.execution_count = 0 := by
      have : accOf pid (statsDict ph processes process_sizes executions) = s := by
        simp [accOf, hs]
      rw [this] at hcount
      exact hcount
    exact ⟨hsc, by simp [emitStats, hsc]⟩

/-- C1 witness: a definition-size entry "B2" with no executions at all;
its bucket has count 0 and is not emitted. -/
theorem generate_stats_count_pos_witness :
    (∀ st ∈ generate_execution_stats (fun _ => 0) [] [("B2", 500)] [],
       1 ≤ st.execution_count) ∧
    ("B2" ∈ ([("B2", 500)] : Dict Nat).map Prod.fst ∧
     "B2" ∉ ([] : List ExecutionInfo).map
       (fun e => resolveId (fun _ => 0)
         (create_process_name_to_id_mapping []) e.process_name)) ∧
    (∀ s, dlookup "B2" (statsDict (fun _ => 0) [] [("B2", 500)] []) = some s →
       s.execution_count = 0 ∧ emitStats ("B2", s) = none) :=
  ⟨(generate_stats_count_pos (fun _ => 0) [] [("B2", 500)] []).1,
   ⟨by decide, by decide⟩,
   (generate_stats_count_pos (fun _ => 0) [] [("B2", 500)] []).2 "B2"
     (by decide) (by decide)⟩

/-- C8: `avg_size_mb` is `total_size_mb` over the count when the count is
nonzero, and exactly 0 when the count is zero (the guard makes the
accessor total). -/
theorem avg_size_mb_spec (s : ExecutionStats) :
    (s.execution_count ≠ 0 →
       s.avg_size_mb = s.total_size_mb / (s.execution_count : ℚ)) ∧
    (s.execution_count = 0 → s.avg_size_mb = 0) := by
  constructor
  · intro h
    simp [ExecutionStats.avg_size_mb, h]
  · intro h
    simp [ExecutionStats.avg_size_mb, h]

/-- C8 witness: a concrete stats value with two executions. -/
theorem avg_size_mb_spec_witness :
    ((⟨none, 2, 2097152, 0⟩ : ExecutionStats).execution_count ≠ 0) ∧
    (⟨none, 2, 2097152, 0⟩ : ExecutionStats).avg_size_mb =
      (⟨none, 2, 2097152, 0⟩ : ExecutionStats).total_size_mb /
        (((⟨none, 2, 2097152, 0⟩ : ExecutionStats).execution_count : ℚ)) :=
  ⟨by decide, (avg_size_mb_spec ⟨none, 2, 2097152, 0⟩).1 (by decide)⟩

/-- C9: the size scanner returns 0 on a non-existent path and the file's
own size on a single regular file, raising in neither case. -/
theorem get_file_size_recursive_base (sz : Nat) :
    get_file_size_recursive PathModel.missing = 0 ∧
    get_file_size_recursive (PathModel.regularFile sz) = sz :=
  ⟨rfl, rfl⟩

/-- C4 counterexample: a walk whose first entry raises, followed by a
readable 7-byte file.  Per-entry skipping (the claim) would still count
the 7 bytes; the code's `try`/`except` wraps the whole loop, so the walk
stops and returns 0. -/
theorem gfsr_claim_counterexample :
    get_file_size_recursive (PathModel.directory [FsEntry.bad, FsEntry.file 7]) = 0 ∧
    specSkipEntrySum [FsEntry.bad, FsEntry.file 7] = 7 ∧
    get_file_size_recursive (PathModel.directory [FsEntry.bad, FsEntry.file 7]) ≠
      specSkipEntrySum [FsEntry.bad, FsEntry.file 7] := by
  decide

theorem walkSum_append_no_bad (pre : List FsEntry) :
    ∀ (acc : Nat) (l : List FsEntry), FsEntry.bad ∉ pre →
    walkSum acc (pre ++ l) = walkSum (acc + specSkipEntrySum pre) l := by
  induction pre with
  | nil =>
    intro acc l _
    simp [specSkipEntrySum]
  | cons x pre ih =>
    intro acc l hmem
    simp only [List.mem_cons] at hmem
    push_neg at hmem
    cases x with
    | file sz =>
      simp only [List.cons_append, walkSum, specSkipEntrySum]
      show walkSum (acc + sz) (pre ++ l) =
        walkSum (acc + (sz + specSkipEntrySum pre)) l
      rw [ih _ _ hmem.2, Nat.add_assoc]
    | dirEntry =>
      simp only [List.cons_append, walkSum, specSkipEntrySum]
      show walkSum acc (pre ++ l) = walkSum (acc + specSkipEntrySum pre) l
      exact ih _ _ hmem.2
    | bad => exact absurd rfl (fun h => hmem.1 h.symm)

/-- C4 (amended): when an access error occurs during the walk the function
does not raise; it warns, stops the walk, and returns the sum of the
regular files seen before the error (entries after the error contribute
nothing). -/
theorem gfsr_error_truncates (pre rest : List FsEntry)
    (hpre : FsEntry.bad ∉ pre) :
    get_file_size_recursive (PathModel.directory (pre ++ FsEntry.bad :: rest)) =
      specSkipEntrySum pre := by
  have h := walkSum_append_no_bad pre 0 (FsEntry.bad :: rest) hpre
  simp only [walkSum] at h
  simp [get_file_size_recursive, h]

/-- C4 witness: an error after a 3-byte file and a directory entry yields 3,
whatever follows the error. -/
theorem gfsr_error_truncates_witness :
    (FsEntry.bad ∉ [FsEntry.file 3, FsEntry.dirEntry]) ∧
    get_file_size_recursive (PathModel.directory
      ([FsEntry.file 3, FsEntry.dirEntry] ++ FsEntry.bad :: [FsEntry.file 7])) =
      specSkipEntrySum [FsEntry.file 3, FsEntry.dirEntry] :=
  ⟨by decide,
   gfsr_error_truncates [FsEntry.file 3, FsEntry.dirEntry] [FsEntry.file 7]
     (by decide)⟩

/-- C2: all executions resolving to one identifier land in the single
bucket under that key; at finalization the emitted record has
`total_size_bytes` equal to the sum of the bucket's execution sizes plus
its definition size exactly once, and `max_size_bytes` equal to the max
of the largest single execution size and the definition size. -/
theorem generate_stats_single_bucket (ph : String → Int)
    (processes : Dict ProcessInfo) (process_sizes : Dict Nat)
    (executions : List ExecutionInfo) (pid : String)
    (hnodup : (process_sizes.map Prod.fst).Nodup)
    (hm : pid ∈ executions.map
      (fun e => resolveId ph (create_process_name_to_id_mapping processes) e.process_name)) :
    ∃ s, dlookup pid (statsDict ph processes process_sizes executions) = some s ∧
      s.execution_count =
        (matching ph (create_process_name_to_id_mapping processes) executions pid).length ∧
      s.total_execution_size =
        ((matching ph (create_process_name_to_id_mapping processes) executions pid).map
          ExecutionInfo.size_bytes).sum ∧
      s.max_execution_size =
        (matching ph (create_process_name_to_id_mapping processes) executions pid).foldl
          (fun m e => max m e.size_bytes) 0 ∧
      s.process_definition_size = (dlookup pid process_sizes).getD 0 ∧
      ({ process_info := s.process_info,
         execution_count :=
           (matching ph (create_process_name_to_id_mapping processes) executions pid).length,
         total_size_bytes :=
           ((matching ph (create_process_name_to_id_mapping processes) executions pid).map
             ExecutionInfo.size_bytes).sum + (dlookup pid process_sizes).getD 0,
         max_size_bytes :=
           max ((matching ph (create_process_name_to_id_mapping processes) executions pid).foldl
             (fun m e => max m e.size_bytes) 0) ((dlookup pid process_sizes).getD 0) } :
        ExecutionStats) ∈ generate_execution_stats ph processes process_sizes executions := by
  have hmat : matching ph (create_process_name_to_id_mapping processes) executions pid ≠ [] := by
    obtain ⟨e, he, hres⟩ := List.mem_map.mp hm
    exact List.ne_nil_of_mem
      (List.mem_filter.mpr ⟨he, by simp [hres]⟩)
  have hsome : (dlookup pid (statsDict ph processes process_sizes executions)).isSome := by
    unfold statsDict
    rw [dlookup_mergeSizes_isSome]
    refine Or.inl ((dlookup_execFold_isSome ph processes
      (create_process_name_to_id_mapping processes) executions [] pid).mpr ?_)
    exact Or.inr hmat
  cases hs : dlookup pid (statsDict ph processes process_sizes executions) with
  | none => rw [hs] at hsome; simp at hsome
  | some s =>
    have hsacc : accOf pid (statsDict ph processes process_sizes executions) = s := by
      simp [accOf, hs]
    have hc : s.execution_count =
        (matching ph (create_process_name_to_id_mapping processes) executions pid).length := by
      rw [← hsacc]
      unfold statsDict
      rw [accOf_mergeSizes_count, accOf_execFold_count]
      simp [accOf, dlookup, defaultAcc]
    have ht : s.total_execution_size =
        ((matching ph (create_process_name_to_id_mapping processes) executions pid).map
          ExecutionInfo.size_bytes).sum := by
      rw [← hsacc]
      unfold statsDict
      rw [accOf_mergeSizes_total, accOf_execFold_total]
      simp [accOf, dlookup, defaultAcc]
    have hx : s.max_execution_size =
        (matching ph (create_process_name_to_id_mapping processes) executions pid).foldl
          (fun m e => max m e.size_bytes) 0 := by
      rw [← hsacc]
      unfold statsDict
      rw [accOf_mergeSizes_max, accOf_execFold_max]
      simp [accOf, dlookup, defaultAcc]
    have hd : s.process_definition_size = (dlookup pid process_sizes).getD 0 := by
      rw [← hsacc]
      unfold statsDict
      rw [accOf_mergeSizes_def _ _ _ _ hnodup, accOf_execFold_def]
      simp [accOf, dlookup, defaultAcc]
    have hc0 : s.execution_count ≠ 0 := by
      intro h0
      exact hmat (List.eq_nil_of_length_eq_zero (hc ▸ h0))
    refine ⟨s, rfl, hc, ht, hx, hd, ?_⟩
    refine List.mem_filterMap.mpr ⟨(pid, s), mem_of_dlookup hs, ?_⟩
    show (if s.execution_count = 0 then none else _) = _
    rw [if_neg hc0, hc, ht, hx, hd]

/-- C2 witness: the scenario input, bucket "A1" ("Invoice Sync"). -/
theorem generate_stats_single_bucket_witness :
    ((exSizes.map Prod.fst).Nodup ∧
     "A1" ∈ exExecs.map
       (fun e => resolveId (fun _ => 0)
         (create_process_name_to_id_mapping exProcs) e.process_name)) ∧
    (∃ s, dlookup "A1" (statsDict (fun _ => 0) exProcs exSizes exExecs) = some s ∧
      s.execution_count =
        (matching (fun _ => 0) (create_process_name_to_id_mapping exProcs) exExecs "A1").length ∧
      s.total_execution_size =
        ((matching (fun _ => 0) (create_process_name_to_id_mapping exProcs) exExecs "A1").map
          ExecutionInfo.size_bytes).sum ∧
      s.max_execution_size =
        (matching (fun _ => 0) (create_process_name_to_id_mapping exProcs) exExecs "A1").foldl
          (fun m e => max m e.size_bytes) 0 ∧
      s.process_definition_size = (dlookup "A1" exSizes).getD 0 ∧
      ({ process_info := s.process_info,
         execution_count :=
           (matching (fun _ => 0) (create_process_name_to_id_mapping exProcs) exExecs "A1").length,
         total_size_bytes :=
           ((matching (fun _ => 0) (create_process_name_to_id_mapping exProcs) exExecs "A1").map
             ExecutionInfo.size_bytes).sum + (dlookup "A1" exSizes).getD 0,
         max_size_bytes :=
           max ((matching (fun _ => 0) (create_process_name_to_id_mapping exProcs) exExecs "A1").foldl
             (fun m e => max m e.size_bytes) 0) ((dlookup "A1" exSizes).getD 0) } :
        ExecutionStats) ∈ generate_execution_stats (fun _ => 0) exProcs exSizes exExecs) :=
  ⟨⟨by decide, by decide⟩,
   generate_stats_single_bucket (fun _ => 0) exProcs exSizes exExecs "A1"
     (by decide) (by decide)⟩

theorem dlookup_create_mapping_aux (l : Dict ProcessInfo) :
    ∀ (acc : Dict String) (n : String),
    dlookup n (l.foldl (fun acc p => dinsert p.2.process_name p.1 acc) acc) =
      match l.reverse.find? (fun p => p.2.process_name == n) with
      | some p => some p.1
      | none => dlookup n acc := by
  induction l with
  | nil =>
    intro acc n
    simp
  | cons p l ih =>
    intro acc n
    simp only [List.foldl_cons, List.reverse_cons, List.find?_append]
    rw [ih]
    cases hf : l.reverse.find? (fun p => p.2.process_name == n) with
    | some q => simp [Option.or]
    | none =>
      by_cases h : p.2.process_name = n
      · have hb : (p.2.process_name == n) = true := beq_iff_eq.mpr h
        simp [List.find?, hb, dlookup_dinsert, h, Option.or]
      · have hb : (p.2.process_name == n) = false := by simp [h]
        simp [List.find?, hb, dlookup_dinsert, h, Option.or]

/-- C7: the inverse index built by `create_process_name_to_id_mapping`
sends each display name to an identifier whose `ProcessInfo` carries that
name, and its value at a name is exactly the identifier of the LAST dict
entry bearing that name, so of two identifiers sharing a display name
the one processed later silently overwrites the earlier. -/
theorem create_mapping_spec (processes : Dict ProcessInfo)
    (hnd : (processes.map Prod.fst).Nodup) (n : String) :
    (∀ pid, dlookup n (create_process_name_to_id_mapping processes) = some pid →
       ∃ pi, dlookup pid processes = some pi ∧ pi.process_name = n) ∧
    dlookup n (create_process_name_to_id_mapping processes) =
      (processes.reverse.find? (fun p => p.2.process_name == n)).map Prod.fst := by
  have hchar : dlookup n (create_process_name_to_id_mapping processes) =
      (processes.reverse.find? (fun p => p.2.process_name == n)).map Prod.fst := by
    unfold create_process_name_to_id_mapping
    rw [dlookup_create_mapping_aux]
    cases processes.reverse.find? (fun p => p.2.process_name == n) <;> rfl
  refine ⟨?_, hchar⟩
  intro pid hpid
  rw [hchar] at hpid
  cases hf : processes.reverse.find? (fun p => p.2.process_name == n) with
  | none =>
    rw [hf] at hpid
    simp at hpid
  | some q =>
    rw [hf] at hpid
    have hpid' : q.1 = pid := by simpa using hpid
    have hqmem : q ∈ processes := List.mem_reverse.mp (List.mem_of_find?_eq_some hf)
    have hqname : q.2.process_name = n := by
      have := List.find?_some hf
      simpa using this
    refine ⟨q.2, ?_, hqname⟩
    rw [← hpid']
    exact dlookup_eq_of_mem hnd (by simpa using hqmem)

/-- Two definitions sharing the display name "Dup": used to exhibit the
last-write-wins behaviour of the inverse index. -/
def dupProcs : Dict ProcessInfo :=
  [("P1", { process_id := "P1", process_name := "Dup", process_type := "t1" }),
   ("P2", { process_id := "P2", process_name := "Dup", process_type := "t2" })]

/-- C7 witness: on two definitions sharing the name "Dup" the index is
consistent and its value at "Dup" is the later identifier "P2". -/
theorem create_mapping_spec_witness :
    (dupProcs.map Prod.fst).Nodup ∧
    ((∀ pid, dlookup "Dup" (create_process_name_to_id_mapping dupProcs) = some pid →
        ∃ pi, dlookup pid dupProcs = some pi ∧ pi.process_name = "Dup") ∧
     dlookup "Dup" (create_process_name_to_id_mapping dupProcs) =
       (dupProcs.reverse.find? (fun p => p.2.process_name == "Dup")).map Prod.fst) :=
  ⟨by decide, create_mapping_spec dupProcs (by decide) "Dup"⟩

/-- Definition mapping whose only key collides with a possible fallback
identifier. -/
def cexProcs : Dict ProcessInfo :=
  [("unknown_process_5", { process_id := "unknown_process_5",
                           process_name := "Other", process_type := "scheduled" })]

/-- One execution whose name "Ghost" matches no definition. -/
def cexExecs : List ExecutionInfo :=
  [{ execution_id := "e1", process_name := "Ghost", process_id := "",
     size_bytes := 100 }]

/-- C3 counterexample: "Ghost" is absent from the name index, its fallback
identifier (hash 5) is "unknown_process_5" — which is also a real
definition key — so the bucket's `process_info` is that definition, with
`process_type` "scheduled", not "unknown". -/
theorem fallback_unknown_counterexample :
    dlookup "Ghost" (create_process_name_to_id_mapping cexProcs) = none ∧
    generate_execution_stats (fun _ => 5) cexProcs [] cexExecs =
      [{ process_info := some { process_id := "unknown_process_5",
                                process_name := "Other",
                                process_type := "scheduled", folder_name := "" },
         execution_count := 1, total_size_bytes := 100, max_size_bytes := 100 }] ∧
    ("scheduled" : String) ≠ "unknown" := by
  decide

/-- C3 (amended): for an execution whose display name is absent from the
name index, provided its synthesized fallback identifier is not itself a
key of the definition mapping, the output contains a bucket whose
`process_info` is a placeholder with that fallback identifier and type
"unknown"; the fallback identifier is the fixed prefix "unknown_process_"
followed by the hash of the display name reduced to the range [0, 10000),
hence the same within one run for every occurrence of the same name. -/
theorem fallback_unknown_bucket (ph : String → Int)
    (processes : Dict ProcessInfo) (process_sizes : Dict Nat)
    (executions : List ExecutionInfo) (e : ExecutionInfo)
    (he : e ∈ executions)
    (hunres : dlookup e.process_name (create_process_name_to_id_mapping processes) = none)
    (hfb : dlookup (fallbackId ph e.process_name) processes = none) :
    (∃ st ∈ generate_execution_stats ph processes process_sizes executions,
       ∃ nm, st.process_info =
         some { process_id := fallbackId ph e.process_name, process_name := nm,
                process_type := "unknown", folder_name := "" }) ∧
    fallbackId ph e.process_name =
      "unknown_process_" ++ toString ((ph e.process_name) % 10000) ∧
    0 ≤ (ph e.process_name) % 10000 ∧ (ph e.process_name) % 10000 < 10000 := by
  have hres : resolveId ph (create_process_name_to_id_mapping processes)
      e.process_name = fallbackId ph e.process_name := by
    simp [resolveId, hunres]
  have hmat : matching ph (create_process_name_to_id_mapping processes)
      executions (fallbackId ph e.process_name) ≠ [] :=
    List.ne_nil_of_mem (List.mem_filter.mpr ⟨he, by simp [hres]⟩)
  obtain ⟨nm, hinfo⟩ := accOf_execFold_info_unknown ph processes
    (create_process_name_to_id_mapping processes) executions []
    (fallbackId ph e.process_name) hfb rfl hmat
  have hsome_exec : (dlookup (fallbackId ph e.process_name)
      (execFold ph processes (create_process_name_to_id_mapping processes)
        [] executions)).isSome := by
    rw [dlookup_execFold_isSome]
    exact Or.inr hmat
  have hminfo := accOf_mergeSizes_info processes process_sizes
    (execFold ph processes (create_process_name_to_id_mapping processes) [] executions)
    (fallbackId ph e.process_name) hsome_exec
  have hcount : (accOf (fallbackId ph e.process_name)
      (statsDict ph processes process_sizes executions)).execution_count ≠ 0 := by
    unfold statsDict
    rw [accOf_mergeSizes_count, accOf_execFold_count]
    intro h0
    exact hmat (List.eq_nil_of_length_eq_zero (by omega))
  have hsome_m : (dlookup (fallbackId ph e.process_name)
      (statsDict ph processes process_sizes executions)).isSome := by
    unfold statsDict
    rw [dlookup_mergeSizes_isSome]
    exact Or.inl hsome_exec
  refine ⟨?_, rfl, Int.emod_nonneg _ (by norm_num), Int.emod_lt_of_pos _ (by norm_num)⟩
  cases hs : dlookup (fallbackId ph e.process_name)
      (statsDict ph processes process_sizes executions) with
  | none => rw [hs] at hsome_m; simp at hsome_m
  | some s =>
    have hsacc : accOf (fallbackId ph e.process_name)
        (statsDict ph processes process_sizes executions) = s := by
      simp [accOf, hs]
    have hsinfo : s.process_info =
        some { process_id := fallbackId ph e.process_name, process_name := nm,
               process_type := "unknown", folder_name := "" } := by
      rw [← hsacc]
      show (accOf (fallbackId ph e.process_name)
        (statsDict ph processes process_sizes executions)).process_info = _
      unfold statsDict
      rw [hminfo]
      exact hinfo
    have hsc : s.execution_count ≠ 0 := hsacc ▸ hcount
    refine ⟨{ process_info := s.process_info, execution_count := s.execution_count,
              total_size_bytes := s.total_execution_size + s.process_definition_size,
              max_size_bytes := max s.max_execution_size s.process_definition_size },
            ?_, nm, hsinfo⟩
    refine List.mem_filterMap.mpr ⟨(fallbackId ph e.process_name, s),
      mem_of_dlookup hs, ?_⟩
    show (if s.execution_count = 0 then none else _) = _
    rw [if_neg hsc]

/-- C3 witness: a lone "Ghost" execution against an empty definition set
lands in an "unknown"-typed fallback bucket. -/
theorem fallback_unknown_bucket_witness :
    (({ execution_id := "e1", process_name := "Ghost", process_id := "",
        size_bytes := 100 } : ExecutionInfo) ∈ cexExecs ∧
     dlookup "Ghost" (create_process_name_to_id_mapping []) = none ∧
     dlookup (fallbackId (fun _ => 3) "Ghost") ([] : Dict ProcessInfo) = none) ∧
    ((∃ st ∈ generate_execution_stats (fun _ => 3) [] [] cexExecs,
        ∃ nm, st.process_info =
          some { process_id := fallbackId (fun _ => 3) "Ghost", process_name := nm,
                 process_type := "unknown", folder_name := "" }) ∧
     fallbackId (fun _ => 3) "Ghost" =
       "unknown_process_" ++ toString (((fun (_ : String) => (3 : Int)) "Ghost") % 10000) ∧
     0 ≤ ((fun (_ : String) => (3 : Int)) "Ghost") % 10000 ∧
     ((fun (_ : String) => (3 : Int)) "Ghost") % 10000 < 10000) :=
  ⟨⟨by decide, by decide, by decide⟩,
   fallback_unknown_bucket (fun _ => 3) [] [] cexExecs
     { execution_id := "e1", process_name := "Ghost", process_id := "",
       size_bytes := 100 }
     (by decide) (by decide) (by decide)⟩

/-- C5 counterexample: on the scenario pipeline the "Invoice Sync" row's
"Process Definition Size (MB)" column holds 0 although the process's
definition size is 1000 bytes (1000/2²⁰ MB ≠ 0): the `hasattr` guard in
`write_csv_report` probes an attribute `ExecutionStats` never has, so the
column never carries the definition size. -/
theorem csv_definition_column_counterexample :
    ((write_csv_report (generate_execution_stats (fun _ => 0) exProcs exSizes
        exExecs)).get? 1).bind (fun row => row.get? 9) =
      some (CsvCell.rat 0) ∧
    (dlookup "A1" exSizes).getD 0 = 1000 ∧
    ((1000 : ℚ) / (1024 * 1024) ≠ 0) := by
  refine ⟨rfl, by decide, by norm_num⟩

/-- C5 (amended): every row written by `write_csv_report` has the eleven
columns in the stated order, but the definition-size component column is
always 0 (the attribute the code probes for never exists on
`ExecutionStats`), and the execution-size component equals the total size
(MB) minus that zero component — the full total, not the total minus the
actual definition size. -/
theorem csv_row_spec (stats_list : List ExecutionStats) :
    (∀ row ∈ write_csv_report stats_list, row.length = 11) ∧
    (∀ st ∈ stats_list,
       csvRow st ∈ write_csv_report stats_list ∧
       csvRow st =
         [CsvCell.str (infoName st.process_info), CsvCell.str (infoId st.process_info),
          CsvCell.str (infoType st.process_info), CsvCell.str (infoFolder st.process_info),
          CsvCell.nat st.execution_count, CsvCell.nat st.total_size_bytes,
          CsvCell.rat st.total_size_mb, CsvCell.rat st.avg_size_mb,
          CsvCell.rat st.max_size_mb, CsvCell.rat 0,
          CsvCell.rat (st.total_size_mb - 0)]) := by
  constructor
  · intro row hrow
    rcases List.mem_cons.mp hrow with h | h
    · rw [h]
      rfl
    · obtain ⟨st, _, hst⟩ := List.mem_map.mp h
      rw [← hst]
      rfl
  · intro st hst
    constructor
    · exact List.mem_cons_of_mem _ (List.mem_map_of_mem csvRow hst)
    · simp [csvRow]

/-- C5 witness: a single concrete stats record. -/
theorem csv_row_spec_witness :
    ((⟨none, 1, 2, 3⟩ : ExecutionStats) ∈ [(⟨none, 1, 2, 3⟩ : ExecutionStats)]) ∧
    (csvRow ⟨none, 1, 2, 3⟩ ∈ write_csv_report [⟨none, 1, 2, 3⟩] ∧
     csvRow ⟨none, 1, 2, 3⟩ =
       [CsvCell.str (infoName (⟨none, 1, 2, 3⟩ : ExecutionStats).process_info),
        CsvCell.str (infoId (⟨none, 1, 2, 3⟩ : ExecutionStats).process_info),
        CsvCell.str (infoType (⟨none, 1, 2, 3⟩ : ExecutionStats).process_info),
        CsvCell.str (infoFolder (⟨none, 1, 2, 3⟩ : ExecutionStats).process_info),
        CsvCell.nat (⟨none, 1, 2, 3⟩ : ExecutionStats).execution_count,
        CsvCell.nat (⟨none, 1, 2, 3⟩ : ExecutionStats).total_size_bytes,
        CsvCell.rat (⟨none, 1, 2, 3⟩ : ExecutionStats).total_size_mb,
        CsvCell.rat (⟨none, 1, 2, 3⟩ : ExecutionStats).avg_size_mb,
        CsvCell.rat (⟨none, 1, 2, 3⟩ : ExecutionStats).max_size_mb,
        CsvCell.rat 0,
        CsvCell.rat ((⟨none, 1, 2, 3⟩ : ExecutionStats).total_size_mb - 0)]) :=
  ⟨by decide, (csv_row_spec [⟨none, 1, 2, 3⟩]).2 ⟨none, 1, 2, 3⟩ (by decide)⟩

/-! ## Permutation invariance of the merge -/

/-- The four numeric components of an accumulator (everything except
`process_info`). -/
def accData (s : StatsAcc) : Nat × Nat × Nat × Nat :=
  (s.execution_count, s.total_execution_size, s.max_execution_size,
   s.process_definition_size)

/-- The three numbers `emitStats` reports for a bucket:
`execution_count`, `total_size_bytes` and `max_size_bytes`. -/
def bucketStats (s : StatsAcc) : Nat × Nat × Nat :=
  (s.execution_count, s.total_execution_size + s.process_definition_size,
   max s.max_execution_size s.process_definition_size)

theorem optData_eq (o₁ o₂ : Option StatsAcc)
    (h1 : o₁.isSome = o₂.isSome)
    (h2 : accData (o₁.getD defaultAcc) = accData (o₂.getD defaultAcc)) :
    o₁.map accData = o₂.map accData := by
  cases o₁ <;> cases o₂ <;> simp_all

theorem execFold_perm_optData (ph : String → Int) (processes : Dict ProcessInfo)
    (n2i : Dict String) {es₁ es₂ : List ExecutionInfo}
    (hperm : es₁.Perm es₂) (q : String) :
    (dlookup q (execFold ph processes n2i [] es₁)).map accData =
      (dlookup q (execFold ph processes n2i [] es₂)).map accData := by
  have hfil : (matching ph n2i es₁ q).Perm (matching ph n2i es₂ q) :=
    hperm.filter _
  have hiff : (matching ph n2i es₁ q = []) ↔ (matching ph n2i es₂ q = []) := by
    constructor <;> intro hnil
    · exact List.eq_nil_of_length_eq_zero (by rw [← hfil.length_eq, hnil]; rfl)
    · exact List.eq_nil_of_length_eq_zero (by rw [hfil.length_eq, hnil]; rfl)
  refine optData_eq _ _ ?_ ?_
  · rw [Bool.eq_iff_iff, dlookup_execFold_isSome, dlookup_execFold_isSome]
    simp only [dlookup, Option.isSome_none, Bool.false_eq_true, false_or]
    exact not_congr hiff
  · show accData (accOf q (execFold ph processes n2i [] es₁)) =
      accData (accOf q (execFold ph processes n2i [] es₂))
    simp only [accData, Prod.mk.injEq]
    refine ⟨?_, ?_, ?_, ?_⟩
    · rw [accOf_execFold_count, accOf_execFold_count, hfil.length_eq]
    · rw [accOf_execFold_total, accOf_execFold_total,
          (hfil.map ExecutionInfo.size_bytes).sum_eq]
    · rw [accOf_execFold_max, accOf_execFold_max]
      exact @List.Perm.foldl_eq ExecutionInfo Nat
        (fun m e => max m e.size_bytes) _ _ ⟨fun b a₁ a₂ => by omega⟩ hfil _
    · rw [accOf_execFold_def, accOf_execFold_def]

theorem mergeSizes_congr (processes : Dict ProcessInfo) (sizes : Dict Nat) :
    ∀ (d₁ d₂ : Dict StatsAcc),
    (∀ q, (dlookup q d₁).map accData = (dlookup q d₂).map accData) →
    ∀ q, (dlookup q (mergeSizes processes d₁ sizes)).map accData =
      (dlookup q (mergeSizes processes d₂ sizes)).map accData := by
  induction sizes with
  | nil =>
    intro d₁ d₂ h q
    exact h q
  | cons pz rest ih =>
    intro d₁ d₂ h q
    rw [mergeSizes_cons, mergeSizes_cons]
    refine ih _ _ ?_ q
    intro r
    have hsome : (dlookup pz.1 d₁).isSome = (dlookup pz.1 d₂).isSome := by
      have hp := h pz.1
      cases h₁ : dlookup pz.1 d₁ <;> cases h₂ : dlookup pz.1 d₂ <;> simp_all
    by_cases hr : pz.1 = r
    · subst hr
      cases h₁ : dlookup pz.1 d₁ with
      | none =>
        have h₂ : dlookup pz.1 d₂ = none := by
          cases h₂ : dlookup pz.1 d₂ with
          | none => rfl
          | some s => rw [h₁, h₂] at hsome; simp at hsome
        unfold mergeStep
        rw [h₁, h₂]
        simp [dlookup_dinsert]
      | some s₁ =>
        have h₂ : ∃ s₂, dlookup pz.1 d₂ = some s₂ := by
          cases h₂ : dlookup pz.1 d₂ with
          | none => rw [h₁, h₂] at hsome; simp at hsome
          | some s => exact ⟨s, rfl⟩
        obtain ⟨s₂, h₂⟩ := h₂
        have hacc : accData s₁ = accData s₂ := by
          have hp := h pz.1
          rw [h₁, h₂] at hp
          simpa using hp
        unfold mergeStep
        rw [h₁, h₂]
        simp only [dlookup_dinsert, if_pos rfl, Option.map_some']
        simp only [accData, Prod.mk.injEq] at hacc ⊢
        simp_all [accData]
    · rw [dlookup_mergeStep_ne processes d₁ pz r hr,
          dlookup_mergeStep_ne processes d₂ pz r hr]
      exact h r

/-- C10: permuting the execution list leaves, for every bucket identifier,
the bucket's existence, its `execution_count`, its finalized
`total_size_bytes` and its finalized `max_size_bytes` unchanged — the
output of `generate_execution_stats` is invariant up to reordering (only
the attached `process_info` of colliding unknown buckets may differ). -/
theorem generate_stats_perm_invariant (ph : String → Int)
    (processes : Dict ProcessInfo) (process_sizes : Dict Nat)
    {es₁ es₂ : List ExecutionInfo} (hperm : es₁.Perm es₂) (pid : String) :
    ((dlookup pid (statsDict ph processes process_sizes es₁)).isSome ↔
      (dlookup pid (statsDict ph processes process_sizes es₂)).isSome) ∧
    (dlookup pid (statsDict ph processes process_sizes es₁)).map bucketStats =
      (dlookup pid (statsDict ph processes process_sizes es₂)).map bucketStats ∧
    ((dlookup pid (statsDict ph processes process_sizes es₁)).bind
        (fun s => emitStats (pid, s))).map
        (fun st => (st.execution_count, st.total_size_bytes, st.max_size_bytes)) =
      ((dlookup pid (statsDict ph processes process_sizes es₂)).bind
        (fun s => emitStats (pid, s))).map
        (fun st => (st.execution_count, st.total_size_bytes, st.max_size_bytes)) := by
  have hdata : ∀ q,
      (dlookup q (statsDict ph processes process_sizes es₁)).map accData =
        (dlookup q (statsDict ph processes process_sizes es₂)).map accData := by
    intro q
    unfold statsDict
    exact mergeSizes_congr processes process_sizes _ _
      (fun r => execFold_perm_optData ph processes _ hperm r) q
  have h := hdata pid
  cases h₁ : dlookup pid (statsDict ph processes process_sizes es₁) with
  | none =>
    cases h₂ : dlookup pid (statsDict ph processes process_sizes es₂) with
    | none => simp
    | some s₂ => rw [h₁, h₂] at h; simp at h
  | some s₁ =>
    cases h₂ : dlookup pid (statsDict ph processes process_sizes es₂) with
    | none => rw [h₁, h₂] at h; simp at h
    | some s₂ =>
      rw [h₁, h₂] at h
      have hacc : accData s₁ = accData s₂ := by simpa using h
      simp only [accData, Prod.mk.injEq] at hacc
      obtain ⟨hq1, hq2, hq3, hq4⟩ := hacc
      refine ⟨by simp, ?_, ?_⟩
      · simp only [Option.map_some', bucketStats, hq1, hq2, hq3, hq4]
      · simp only [Option.some_bind, emitStats]
        show (if s₁.execution_count = 0 then none else _).map _ =
          (if s₂.execution_count = 0 then none else _).map _
        by_cases hz : s₁.execution_count = 0
        · rw [if_pos hz, if_pos (hq1 ▸ hz)]
        · rw [if_neg hz, if_neg (hq1 ▸ hz)]
          simp [hq1, hq2, hq3, hq4]

/-- C10 witness: the scenario executions against their reversal. -/
theorem generate_stats_perm_invariant_witness :
    exExecs.Perm exExecs.reverse ∧
    (((dlookup "A1" (statsDict (fun _ => 0) exProcs exSizes exExecs)).isSome ↔
       (dlookup "A1" (statsDict (fun _ => 0) exProcs exSizes exExecs.reverse)).isSome) ∧
     (dlookup "A1" (statsDict (fun _ => 0) exProcs exSizes exExecs)).map bucketStats =
       (dlookup "A1" (statsDict (fun _ => 0) exProcs exSizes exExecs.reverse)).map bucketStats ∧
     ((dlookup "A1" (statsDict (fun _ => 0) exProcs exSizes exExecs)).bind
         (fun s => emitStats ("A1", s))).map
         (fun st => (st.execution_count, st.total_size_bytes, st.max_size_bytes)) =
       ((dlookup "A1" (statsDict (fun _ => 0) exProcs exSizes exExecs.reverse)).bind
         (fun s => emitStats ("A1", s))).map
         (fun st => (st.execution_count, st.total_size_bytes, st.max_size_bytes))) :=
  ⟨by decide,
   generate_stats_perm_invariant (fun _ => 0) exProcs exSizes (by decide) "A1"⟩
